import Mathlib

/-!
Verification development for the Syncro LAN communication relay server
(`src/server.py`, class `ScalableCommServer`).

Shallow embedding conventions:
* Python `str` values (usernames, client ids, wire messages, filenames,
  paths) are modelled as `List Char` (`Str`), matching Python's
  code-point-indexed strings; `startswith`/slicing become
  `List.isPrefixOf`/`List.drop`.
* Python `dict` values are insertion-ordered association lists with unique
  keys (`dictGet`/`dictInsert`/`dictErase` mirror `d[k]`-read, `d[k]=v`,
  `del d[k]`).
* Byte strings on the UDP and file channels are `List Nat` (one entry per
  byte); `struct.pack`/`unpack` of `'H'`/`'I'`/`'Q'` become
  `pack16`/`pack32`/`pack64` and their `unpack*` inverses (little-endian,
  the native order of the hosts the source runs on); `bytes.decode` /
  `str.encode` become `decodeStr`/`encodeStr` (one code unit per entry).
* The structured content of framed TCP messages (`USERS:<json>`,
  `CHAT:<user>:<text>`, `STATUS:<json>`, ...) is modelled by the inductive
  `Msg`, abstracting the `json.dumps` serialisation.
* An `asyncio` writer is identified with the client id of its session; a
  transport write raising an exception is modelled by the predicate
  `fails : Str → Bool`.  `send_tcp_message` swallows the exception
  (`try`/`except` in the source) and delivers nothing on failure.
* Broadcast functions return the list of `(recipient client id, message)`
  deliveries they perform; UDP fan-out returns
  `(recipient client id, endpoint, datagram bytes)` triples, one per
  `sendto` call issued by the loop.
* The on-disk upload directory is a map `fs : path → bytes` inside the
  server state; `open(path,'wb')`+writes become `dictInsert`.
-/

namespace Syncro

abbrev Str := List Char

/-- A network address `(ip, port)`, as Python's `(host, port)` tuples. -/
abbrev Addr := Str × Nat

/-- `Client` dataclass of `server.py`: per-session connection information.
The `tcp_writer`/`tcp_reader` handles are identified with the session's
`client_id` (the dict key), so they are not separate fields here. -/
structure Client where
  client_id : Str
  username : Str
  udp_addr : Addr
  video_active : Bool := false
  audio_active : Bool := false
  screen_sharing : Bool := false
  last_seen : Nat := 0
deriving DecidableEq, Repr

/-- The mutable state of `ScalableCommServer`: session registry
(`clients`), username index, the `'main'` room membership set, the
hosted-file catalog, the upload-directory contents, and counters. -/
structure ServerState where
  clients : List (Str × Client)
  username_to_id : List (Str × Str)
  rooms_main : List Str
  hosted_files : List (Str × Str)
  fs : List (Str × List Nat)
  total_messages : Nat := 0
  total_bytes : Nat := 0
deriving DecidableEq, Repr

/-! ### Python dict operations (insertion-ordered association lists) -/

/-- `d.get(k)` / `d[k]`-read on a Python dict. -/
def dictGet {α : Type} : List (Str × α) → Str → Option α
  | [], _ => none
  | p :: rest, k => if p.1 = k then some p.2 else dictGet rest k

/-- `d[k] = v` on a Python dict: update in place if the key exists
(preserving its position), append otherwise. -/
def dictInsert {α : Type} : List (Str × α) → Str → α → List (Str × α)
  | [], k, v => [(k, v)]
  | p :: rest, k, v => if p.1 = k then (k, v) :: rest else p :: dictInsert rest k v

/-- `del d[k]` on a Python dict (no-op when `k` is absent, which the
source always guards with an `in` check anyway). -/
def dictErase {α : Type} : List (Str × α) → Str → List (Str × α)
  | [], _ => []
  | p :: rest, k => if p.1 = k then dictErase rest k else p :: dictErase rest k

/-- The key list of a dict, in insertion order. -/
def dictKeys {α : Type} (d : List (Str × α)) : List Str := d.map Prod.fst

/-- The Python-dict invariant: keys occur at most once. -/
def KeysNodup {α : Type} (d : List (Str × α)) : Prop := (dictKeys d).Nodup

instance {α : Type} (d : List (Str × α)) : Decidable (KeysNodup d) :=
  inferInstanceAs (Decidable (dictKeys d).Nodup)

/-! ### Structured TCP message contents -/

/-- One element of the `USERS:` JSON array / the `STATUS:` JSON object:
`{'username':…,'video':…,'audio':…,'screen':…}`. -/
structure UserEntry where
  username : Str
  video : Bool
  audio : Bool
  screen : Bool
deriving DecidableEq, Repr

/-- The status/user-list entry built from a `Client` record
(`broadcast_user_list` / `broadcast_user_status` in the source). -/
def userEntryOf (c : Client) : UserEntry :=
  ⟨c.username, c.video_active, c.audio_active, c.screen_sharing⟩

/-- The structured content of a framed TCP message sent by the server,
abstracting the textual/JSON serialisation. -/
inductive Msg where
  | connected (client_id username : Str)
  | users (payload : List UserEntry)
  | chat (username text : Str)
  | fileMeta (username json : Str)
  | status (entry : UserEntry)
  | pong
deriving DecidableEq, Repr

/-- The failure predicate describing a run in which no transport write
raises. -/
def noFail : Str → Bool := fun _ => false

/-! ### TCP send and broadcast fan-out (`server.py` lines 334-441) -/

/-- `send_tcp_message`: one framed write to one recipient.  The
`try`/`except` swallows any transport exception, so a failing write
delivers nothing and has no other effect. -/
def send_tcp_message (fails : Str → Bool) (recipient : Str) (m : Msg) :
    List (Str × Msg) :=
  if fails recipient then [] else [(recipient, m)]

/-- `broadcast_chat`: look up the sender; if registered, send
`CHAT:<sender.username>:<message>` to every client including the sender. -/
def broadcast_chat (fails : Str → Bool) (st : ServerState)
    (sender_id : Str) (message : Str) : List (Str × Msg) :=
  match dictGet st.clients sender_id with
  | none => []
  | some sender =>
      st.clients.flatMap fun p =>
        send_tcp_message fails p.1 (Msg.chat sender.username message)

/-- `broadcast_file_meta`: like chat, `FILE_META:<username>:<json>` to
every client including the sender. -/
def broadcast_file_meta (fails : Str → Bool) (st : ServerState)
    (sender_id : Str) (meta_json : Str) : List (Str × Msg) :=
  match dictGet st.clients sender_id with
  | none => []
  | some sender =>
      st.clients.flatMap fun p =>
        send_tcp_message fails p.1 (Msg.fileMeta sender.username meta_json)

/-- `broadcast_user_status`: send `STATUS:{username,video,audio,screen}`
of the given client to every *other* client. -/
def broadcast_user_status (fails : Str → Bool) (st : ServerState)
    (client_id : Str) : List (Str × Msg) :=
  match dictGet st.clients client_id with
  | none => []
  | some client =>
      st.clients.flatMap fun p =>
        if p.1 ≠ client_id then
          send_tcp_message fails p.1 (Msg.status (userEntryOf client))
        else []

/-- The `users` list built by `broadcast_user_list`: one
`{username, video, audio, screen}` object per registered client, in
registry order. -/
def user_list_payload (st : ServerState) : List UserEntry :=
  st.clients.map fun p => userEntryOf p.2

/-- `broadcast_user_list`: send `USERS:<json array>` to every client. -/
def broadcast_user_list (fails : Str → Bool) (st : ServerState) :
    List (Str × Msg) :=
  let message := Msg.users (user_list_payload st)
  st.clients.flatMap fun p => send_tcp_message fails p.1 message

/-! ### Control handling (`server.py` lines 368-412) -/

/-- The `if`/`elif` chain of `handle_control`: set the flag named by the
control message, leave the client unchanged on unrecognized input. -/
def apply_control (control : Str) (c : Client) : Client :=
  if control = "VIDEO_ON".data then { c with video_active := true }
  else if control = "VIDEO_OFF".data then { c with video_active := false }
  else if control = "AUDIO_ON".data then { c with audio_active := true }
  else if control = "AUDIO_OFF".data then { c with audio_active := false }
  else if control = "SCREEN_ON".data then { c with screen_sharing := true }
  else if control = "SCREEN_OFF".data then { c with screen_sharing := false }
  else c

/-- `handle_control`: look up the client, mutate its flag in the registry,
then broadcast the status delta to every other client. -/
def handle_control (fails : Str → Bool) (st : ServerState)
    (client_id : Str) (control : Str) : ServerState × List (Str × Msg) :=
  match dictGet st.clients client_id with
  | none => (st, [])
  | some client =>
      let client' := apply_control control client
      let st' := { st with clients := dictInsert st.clients client_id client' }
      (st', broadcast_user_status fails st' client_id)

/-- `process_tcp_message`: dispatch one decoded TCP frame by its literal
tag.  Returns the updated state and the deliveries performed. -/
def process_tcp_message (fails : Str → Bool) (st : ServerState)
    (client_id : Str) (message : Str) : ServerState × List (Str × Msg) :=
  if ("CHAT:".data).isPrefixOf message then
    let chat_content := message.drop 5
    let out := broadcast_chat fails st client_id chat_content
    ({ st with total_messages := st.total_messages + 1 }, out)
  else if ("FILE_META:".data).isPrefixOf message then
    let meta_json := message.drop 10
    (st, broadcast_file_meta fails st client_id meta_json)
  else if ("CONTROL:".data).isPrefixOf message then
    let control := message.drop 8
    handle_control fails st client_id control
  else if message = "PING".data then
    match dictGet st.clients client_id with
    | some _ => (st, send_tcp_message fails client_id Msg.pong)
    | none => (st, [])
  else
    (st, [])

/-! ### Binary integer packing (`struct.pack`/`unpack`, native little-endian) -/

/-- `struct.pack('H', n)`: two bytes, little-endian. -/
def pack16 (n : Nat) : List Nat := [n % 256, n / 256 % 256]

/-- `struct.pack('I', n)`: four bytes, little-endian. -/
def pack32 (n : Nat) : List Nat :=
  [n % 256, n / 256 % 256, n / 256 ^ 2 % 256, n / 256 ^ 3 % 256]

/-- `struct.pack('Q', n)`: eight bytes, little-endian. -/
def pack64 (n : Nat) : List Nat :=
  [n % 256, n / 256 % 256, n / 256 ^ 2 % 256, n / 256 ^ 3 % 256,
   n / 256 ^ 4 % 256, n / 256 ^ 5 % 256, n / 256 ^ 6 % 256, n / 256 ^ 7 % 256]

/-- `struct.unpack('H', b)[0]`. -/
def unpack16 (b : List Nat) : Nat := b.getD 0 0 + 256 * b.getD 1 0

/-- `struct.unpack('I', b)[0]`. -/
def unpack32 (b : List Nat) : Nat :=
  b.getD 0 0 + 256 * b.getD 1 0 + 256 ^ 2 * b.getD 2 0 + 256 ^ 3 * b.getD 3 0

/-- `struct.unpack('Q', b)[0]`. -/
def unpack64 (b : List Nat) : Nat :=
  b.getD 0 0 + 256 * b.getD 1 0 + 256 ^ 2 * b.getD 2 0 + 256 ^ 3 * b.getD 3 0 +
  256 ^ 4 * b.getD 4 0 + 256 ^ 5 * b.getD 5 0 + 256 ^ 6 * b.getD 6 0 +
  256 ^ 7 * b.getD 7 0

/-- `str.encode`: one code unit per list entry. -/
def encodeStr (s : Str) : List Nat := s.map Char.toNat

/-- `bytes.decode`: inverse of `encodeStr` on encoded strings. -/
def decodeStr (b : List Nat) : Str := b.map Char.ofNat

/-! ### UDP media relay (`server.py` lines 256-301) -/

/-- `broadcast_udp`: re-tag the packet with the sender's username
(`"Unknown"` if the sender is not registered) and send one copy to each
other client's current `udp_addr`.  Each produced triple is one `sendto`
call `(recipient client id, endpoint, datagram)`. -/
def broadcast_udp (st : ServerState) (data : List Nat) (sender_id : Str)
    (packet_type : Nat) : List (Str × Addr × List Nat) :=
  let sender_name := match dictGet st.clients sender_id with
    | some c => c.username
    | none => "Unknown".data
  let sender_bytes := encodeStr sender_name
  let packet := packet_type :: (pack16 sender_bytes.length ++ sender_bytes ++ data)
  (st.clients.filter fun p => p.1 ≠ sender_id).map fun p =>
    (p.1, p.2.udp_addr, packet)

/-- One iteration of the `handle_udp_streams` receive loop for a datagram
`data` arriving from `addr`: parse
`[type:1][client_id_len:2][client_id][payload]`, drop short packets,
learn the sender's UDP address, fan the payload out, and count the bytes.
Returns the new state and the outbound datagrams. -/
def handle_udp_streams (st : ServerState) (data : List Nat) (addr : Addr) :
    ServerState × List (Str × Addr × List Nat) :=
  if data.length < 3 then (st, [])
  else
    let packet_type := data.getD 0 0
    let client_id_len := unpack16 ((data.drop 1).take 2)
    if data.length < 3 + client_id_len then (st, [])
    else
      let client_id := decodeStr ((data.drop 3).take client_id_len)
      let payload := data.drop (3 + client_id_len)
      let st' := match dictGet st.clients client_id with
        | some c =>
            { st with clients :=
                dictInsert st.clients client_id { c with udp_addr := addr } }
        | none => st
      let out := broadcast_udp st' payload client_id packet_type
      ({ st' with total_bytes := st'.total_bytes + data.length }, out)

/-! ### File transfer server (`server.py` lines 104-173) -/

/-- The server-managed upload directory name. -/
def file_upload_dir : Str := "server_file_uploads".data

/-- `os.path.join(self.file_upload_dir, filename)`. -/
def save_path_of (filename : Str) : Str := file_upload_dir ++ ('/' :: filename)

/-- `await reader.readexactly(n)`: take `n` bytes off the stream, raising
(`none`) when fewer are available. -/
def readexactly (n : Nat) (s : List Nat) : Option (List Nat × List Nat) :=
  if n ≤ s.length then some (s.take n, s.drop n) else none

/-- The upload receive loop: `while bytes_received < file_size`, read a
chunk of `min(65536, file_size - bytes_received)` bytes.  `remaining` is
`file_size - bytes_received`. -/
def readChunks : Nat → List Nat → Option (List Nat × List Nat)
  | 0, s => some ([], s)
  | remaining + 1, s =>
      let chunk_size := min 65536 (remaining + 1)
      match readexactly chunk_size s with
      | none => none
      | some (chunk, s') =>
          match readChunks (remaining + 1 - chunk_size) s' with
          | none => none
          | some (restBytes, s'') => some (chunk ++ restBytes, s'')
termination_by r _ => r
decreasing_by simp_wf

/-- The fixed request header of the file channel:
`[command:1][id_len:2][client_id][name_len:4][filename]`. -/
def parseFileHeader (input : List Nat) :
    Option (Nat × Str × Str × List Nat) := do
  let (cmd, r1) ← readexactly 1 input
  let (idLenB, r2) ← readexactly 2 r1
  let (idB, r3) ← readexactly (unpack16 idLenB) r2
  let (nameLenB, r4) ← readexactly 4 r3
  let (nameB, r5) ← readexactly (unpack32 nameLenB) r4
  pure (cmd.getD 0 0, decodeStr idB, decodeStr nameB, r5)

/-- `handle_file_client`: serve one connection on the file port.  `input`
is the byte stream the client writes; the result is the new state and the
bytes the server writes back.  A short read (IncompleteReadError) aborts
the request with the state unchanged, as the handler's `except` clause
does. -/
def handle_file_client (st : ServerState) (input : List Nat) :
    ServerState × List Nat :=
  match parseFileHeader input with
  | none => (st, [])
  | some (command, _client_id, filename, rest) =>
    if command = 1 then
      -- UPLOAD: 8-byte size, then that many bytes, saved and catalogued.
      match readexactly 8 rest with
      | none => (st, [])
      | some (sizeB, rest') =>
        let file_size := unpack64 sizeB
        match readChunks file_size rest' with
        | none => (st, [])
        | some (content, _) =>
            let save_path := save_path_of filename
            ({ st with
                fs := dictInsert st.fs save_path content,
                hosted_files := dictInsert st.hosted_files filename save_path },
             [])
    else if command = 2 then
      -- DOWNLOAD: catalog lookup; real length + content, or zero length.
      match dictGet st.hosted_files filename with
      | some file_path =>
        match dictGet st.fs file_path with
        | some content => (st, pack64 content.length ++ content)
        | none => (st, pack64 0)
      | none => (st, pack64 0)
    else (st, [])

/-! ### Liveness sweep and control-loop teardown (`server.py` lines 242-254, 443-461) -/

/-- `asyncio.sleep(60)` between sweeps. -/
def cleanup_interval : Nat := 60

/-- The `> 300` staleness comparison (5 minutes). -/
def staleness_threshold : Nat := 300

/-- One sweep of `cleanup_inactive_clients`: collect the client ids whose
`last_seen` is more than 300s before `current_time`, delete each from
`clients` (guarded by an `in` check), and broadcast the refreshed user
list when anything was removed. -/
def cleanup_inactive_clients (fails : Str → Bool) (st : ServerState)
    (current_time : Nat) : ServerState × List (Str × Msg) :=
  let inactive := (st.clients.filter fun p =>
      staleness_threshold < current_time - p.2.last_seen).map Prod.fst
  let clients' := inactive.foldl (fun cs cid =>
      if (dictGet cs cid).isSome then dictErase cs cid else cs) st.clients
  let st' := { st with clients := clients' }
  if inactive.isEmpty then (st', []) else (st', broadcast_user_list fails st')

/-- The `finally` block of `handle_tcp_client`: if the session is still
registered, delete it from `clients`, delete its username from the index
when present, discard it from the `'main'` room, and broadcast the
refreshed user list. -/
def teardown_client (fails : Str → Bool) (st : ServerState) (client_id : Str) :
    ServerState × List (Str × Msg) :=
  match dictGet st.clients client_id with
  | none => (st, [])
  | some c =>
      let clients' := dictErase st.clients client_id
      let username_to_id' :=
        if (dictGet st.username_to_id c.username).isSome then
          dictErase st.username_to_id c.username
        else st.username_to_id
      let st' := { st with
        clients := clients',
        username_to_id := username_to_id',
        rooms_main := st.rooms_main.filter (· ≠ client_id) }
      (st', broadcast_user_list fails st')

/-! ### Concrete sample data for evaluation witnesses -/

/-- A registered session `alice`, stale by the time of the sample sweep. -/
def cAlice : Client :=
  { client_id := "alice_1000".data, username := "alice".data,
    udp_addr := ("192.168.0.2".data, 9001), last_seen := 50 }

/-- A registered session `bob`, fresh at the time of the sample sweep. -/
def cBob : Client :=
  { client_id := "bob_2000".data, username := "bob".data,
    udp_addr := ("192.168.0.3".data, 9001), audio_active := true,
    last_seen := 350 }

/-- A sample registry holding `alice` and `bob`. -/
def stAB : ServerState :=
  { clients := [(cAlice.client_id, cAlice), (cBob.client_id, cBob)],
    username_to_id :=
      [(cAlice.username, cAlice.client_id), (cBob.username, cBob.client_id)],
    rooms_main := [cAlice.client_id, cBob.client_id],
    hosted_files := [],
    fs := [] }

/-- A second session that registered with the username `alice` while the
first was still connected; the handshake overwrote the username index. -/
def cAlice2 : Client :=
  { client_id := "alice_9000".data, username := "alice".data,
    udp_addr := ("192.168.0.7".data, 9001), last_seen := 350 }

/-- A sample registry in which two live sessions share the username
`alice` and the index points at the later one. -/
def stDup : ServerState :=
  { clients := [(cAlice.client_id, cAlice), (cBob.client_id, cBob),
      (cAlice2.client_id, cAlice2)],
    username_to_id :=
      [(cAlice.username, cAlice2.client_id), (cBob.username, cBob.client_id)],
    rooms_main := [cAlice.client_id, cBob.client_id, cAlice2.client_id],
    hosted_files := [],
    fs := [] }

/-! ### Dictionary lemmas -/

lemma dictKeys_nil {α : Type} : dictKeys ([] : List (Str × α)) = [] := rfl

lemma dictKeys_cons {α : Type} (p : Str × α) (rest : List (Str × α)) :
    dictKeys (p :: rest) = p.1 :: dictKeys rest := rfl

lemma mem_dictKeys_of_mem {α : Type} {d : List (Str × α)} {k : Str} {v : α}
    (h : (k, v) ∈ d) : k ∈ dictKeys d := by
  induction d with
  | nil => simp at h
  | cons p rest ih =>
      rw [dictKeys_cons]
      rcases List.mem_cons.mp h with h | h
      · rw [← h]
        exact List.mem_cons_self _ _
      · exact List.mem_cons_of_mem _ (ih h)

lemma dictGet_insert_self {α : Type} (d : List (Str × α)) (k : Str) (v : α) :
    dictGet (dictInsert d k v) k = some v := by
  induction d with
  | nil => simp [dictInsert, dictGet]
  | cons p rest ih =>
      by_cases h : p.1 = k <;> simp [dictInsert, dictGet, h, ih]

lemma dictGet_insert_ne {α : Type} (d : List (Str × α)) (k k' : Str) (v : α)
    (h : k' ≠ k) : dictGet (dictInsert d k v) k' = dictGet d k' := by
  have hk : ¬ (k = k') := fun he => h he.symm
  induction d with
  | nil => simp [dictInsert, dictGet, hk]
  | cons p rest ih =>
      by_cases hp : p.1 = k
      · subst hp
        simp [dictInsert, dictGet, hk]
      · by_cases hp' : p.1 = k' <;> simp [dictInsert, dictGet, hp, hp', h, ih]

lemma dictKeys_insert_of_isSome {α : Type} (d : List (Str × α)) (k : Str)
    (v : α) (h : (dictGet d k).isSome) :
    dictKeys (dictInsert d k v) = dictKeys d := by
  induction d with
  | nil => simp [dictGet] at h
  | cons p rest ih =>
      by_cases hp : p.1 = k
      · simp [dictInsert, dictKeys, hp]
      · simp [dictGet, hp] at h
        rw [dictInsert]
        simp only [hp, if_false, dictKeys_cons]
        rw [ih h]

lemma dictGet_erase_self {α : Type} (d : List (Str × α)) (k : Str) :
    dictGet (dictErase d k) k = none := by
  induction d with
  | nil => simp [dictErase, dictGet]
  | cons p rest ih =>
      by_cases h : p.1 = k <;> simp [dictErase, dictGet, h, ih]

lemma dictGet_erase_ne {α : Type} (d : List (Str × α)) (k k' : Str)
    (h : k' ≠ k) : dictGet (dictErase d k) k' = dictGet d k' := by
  induction d with
  | nil => simp [dictErase, dictGet]
  | cons p rest ih =>
      by_cases hp : p.1 = k
      · subst hp
        have hk : ¬ (p.1 = k') := fun he => h (he.symm)
        simp [dictErase, dictGet, hk, ih]
      · by_cases hp' : p.1 = k' <;> simp [dictErase, dictGet, hp, hp', h, ih]

lemma mem_of_dictGet_eq_some {α : Type} (d : List (Str × α)) (k : Str) (v : α)
    (h : dictGet d k = some v) : (k, v) ∈ d := by
  induction d with
  | nil => simp [dictGet] at h
  | cons p rest ih =>
      by_cases hp : p.1 = k
      · simp [dictGet, hp] at h
        obtain ⟨a, b⟩ := p
        simp only [] at hp h
        rw [List.mem_cons]
        left
        rw [hp, h]
      · simp [dictGet, hp] at h
        exact List.mem_cons_of_mem _ (ih h)

lemma dictGet_isSome_of_mem {α : Type} (d : List (Str × α)) (k : Str)
    (h : k ∈ dictKeys d) : (dictGet d k).isSome := by
  induction d with
  | nil => simp [dictKeys_nil] at h
  | cons p rest ih =>
      rw [dictKeys_cons] at h
      rcases List.mem_cons.mp h with h | h
      · subst h
        simp [dictGet]
      · by_cases hp : p.1 = k
        · simp [dictGet, hp]
        · simp only [dictGet, hp, if_false]
          exact ih h

lemma dictGet_eq_some_of_mem {α : Type} (d : List (Str × α)) (k : Str) (v : α)
    (hnd : KeysNodup d) (h : (k, v) ∈ d) : dictGet d k = some v := by
  induction d with
  | nil => simp at h
  | cons p rest ih =>
      rw [KeysNodup, dictKeys_cons] at hnd
      have hnd' := List.nodup_cons.mp hnd
      rcases List.mem_cons.mp h with h | h
      · rw [← h]
        simp [dictGet]
      · have hk : k ∈ dictKeys rest := mem_dictKeys_of_mem h
        have hp : ¬ (p.1 = k) := fun he => hnd'.1 (by rw [he]; exact hk)
        simp only [dictGet, hp, if_false]
        exact ih hnd'.2 h

lemma mem_dictKeys_of_dictGet {α : Type} (d : List (Str × α)) (k : Str) (v : α)
    (h : dictGet d k = some v) : k ∈ dictKeys d :=
  mem_dictKeys_of_mem (mem_of_dictGet_eq_some d k v h)

/-! ### Fan-out delivery lemmas -/

lemma filter_send_of_ne (fails : Str → Bool) (k r : Str) (m : Msg)
    (hp : ¬ (k = r)) :
    ((send_tcp_message fails k m).filter fun d => d.1 = r) = [] := by
  unfold send_tcp_message
  by_cases hf : fails k
  · rw [if_pos hf]
    rfl
  · rw [if_neg hf]
    have hc : decide ((k, m).1 = r) = false := by
      simpa using hp
    simp only [List.filter_cons, hc, Bool.false_eq_true, if_false, List.filter_nil]

lemma filter_send_of_eq (fails : Str → Bool) (r : Str) (m : Msg)
    (hok : fails r = false) :
    ((send_tcp_message fails r m).filter fun d => d.1 = r) = [(r, m)] := by
  unfold send_tcp_message
  rw [hok]
  have hc : decide ((r, m).1 = r) = true := by simp
  simp only [Bool.false_eq_true, if_false, List.filter_cons, hc, if_true,
    List.filter_nil]
  rfl

lemma filter_flatMap_send_of_not_mem (fails : Str → Bool) (m : Msg) (r : Str)
    (cs : List (Str × Client)) (hr : r ∉ dictKeys cs) :
    ((cs.flatMap fun p => send_tcp_message fails p.1 m).filter
      fun d => d.1 = r) = [] := by
  induction cs with
  | nil => rfl
  | cons p rest ih =>
      rw [dictKeys_cons] at hr
      have hp : ¬ (p.1 = r) := fun he => hr (by rw [he]; exact List.mem_cons_self _ _)
      have hrest : r ∉ dictKeys rest := fun hm => hr (List.mem_cons_of_mem _ hm)
      rw [List.flatMap_cons, List.filter_append, filter_send_of_ne fails p.1 r m hp,
        ih hrest]
      rfl

lemma filter_flatMap_send_of_mem (fails : Str → Bool) (m : Msg) (r : Str)
    (cs : List (Str × Client)) (hnd : KeysNodup cs) (hr : r ∈ dictKeys cs)
    (hok : fails r = false) :
    ((cs.flatMap fun p => send_tcp_message fails p.1 m).filter
      fun d => d.1 = r) = [(r, m)] := by
  induction cs with
  | nil => simp [dictKeys_nil] at hr
  | cons p rest ih =>
      rw [KeysNodup, dictKeys_cons] at hnd
      have hnd' := List.nodup_cons.mp hnd
      rw [dictKeys_cons] at hr
      rcases List.mem_cons.mp hr with hr | hr
      · subst hr
        rw [List.flatMap_cons, List.filter_append,
          filter_send_of_eq fails p.1 m hok,
          filter_flatMap_send_of_not_mem fails m p.1 rest hnd'.1]
        rfl
      · have hp : ¬ (p.1 = r) := fun he => hnd'.1 (by rw [he]; exact hr)
        rw [List.flatMap_cons, List.filter_append, filter_send_of_ne fails p.1 r m hp,
          ih hnd'.2 hr, List.nil_append]

lemma snd_of_mem_flatMap_send (fails : Str → Bool) (m : Msg)
    (cs : List (Str × Client)) (d : Str × Msg)
    (hd : d ∈ cs.flatMap fun p => send_tcp_message fails p.1 m) :
    d.2 = m ∧ d.1 ∈ dictKeys cs := by
  induction cs with
  | nil => simp at hd
  | cons p rest ih =>
      rw [List.flatMap_cons, List.mem_append] at hd
      rcases hd with hd | hd
      · have hd' : d = (p.1, m) := by
          by_cases hf : fails p.1 <;> simpa [send_tcp_message, hf] using hd
        subst hd'
        exact ⟨rfl, by rw [dictKeys_cons]; exact List.mem_cons_self _ _⟩
      · rcases ih hd with ⟨h1, h2⟩
        exact ⟨h1, by rw [dictKeys_cons]; exact List.mem_cons_of_mem _ h2⟩

lemma filter_sendGuard_of_ne (fails : Str → Bool) (excl k r : Str) (m : Msg)
    (hp : ¬ (k = r)) :
    (((if k ≠ excl then send_tcp_message fails k m else []) :
        List (Str × Msg)).filter fun d => d.1 = r) = [] := by
  by_cases he : k = excl
  · rw [if_neg (by simpa using he)]
    rfl
  · rw [if_pos he]
    exact filter_send_of_ne fails k r m hp

lemma filter_sendGuard_of_eq (fails : Str → Bool) (excl r : Str) (m : Msg)
    (hne : r ≠ excl) (hok : fails r = false) :
    (((if r ≠ excl then send_tcp_message fails r m else []) :
        List (Str × Msg)).filter fun d => d.1 = r) = [(r, m)] := by
  rw [if_pos hne]
  exact filter_send_of_eq fails r m hok

lemma filter_sendGuard_at_excl (fails : Str → Bool) (excl k : Str) (m : Msg) :
    (((if k ≠ excl then send_tcp_message fails k m else []) :
        List (Str × Msg)).filter fun d => d.1 = excl) = [] := by
  by_cases he : k = excl
  · rw [if_neg (by simpa using he)]
    rfl
  · rw [if_pos he]
    exact filter_send_of_ne fails k excl m he

lemma filter_flatMap_sendGuard_of_not_mem (fails : Str → Bool) (m : Msg)
    (excl r : Str) (cs : List (Str × Client)) (hr : r ∉ dictKeys cs) :
    ((cs.flatMap fun p =>
        if p.1 ≠ excl then send_tcp_message fails p.1 m else []).filter
      fun d => d.1 = r) = [] := by
  induction cs with
  | nil => rfl
  | cons p rest ih =>
      rw [dictKeys_cons] at hr
      have hp : ¬ (p.1 = r) := fun he => hr (by rw [he]; exact List.mem_cons_self _ _)
      have hrest : r ∉ dictKeys rest := fun hm => hr (List.mem_cons_of_mem _ hm)
      rw [List.flatMap_cons, List.filter_append,
        filter_sendGuard_of_ne fails excl p.1 r m hp, ih hrest]
      rfl

lemma filter_flatMap_sendGuard_of_mem (fails : Str → Bool) (m : Msg)
    (excl r : Str) (cs : List (Str × Client)) (hnd : KeysNodup cs)
    (hr : r ∈ dictKeys cs) (hne : r ≠ excl) (hok : fails r = false) :
    ((cs.flatMap fun p =>
        if p.1 ≠ excl then send_tcp_message fails p.1 m else []).filter
      fun d => d.1 = r) = [(r, m)] := by
  induction cs with
  | nil => simp [dictKeys_nil] at hr
  | cons p rest ih =>
      rw [KeysNodup, dictKeys_cons] at hnd
      have hnd' := List.nodup_cons.mp hnd
      rw [dictKeys_cons] at hr
      rcases List.mem_cons.mp hr with hr | hr
      · subst hr
        rw [List.flatMap_cons, List.filter_append,
          filter_sendGuard_of_eq fails excl p.1 m hne hok,
          filter_flatMap_sendGuard_of_not_mem fails m excl p.1 rest hnd'.1]
        rfl
      · have hp : ¬ (p.1 = r) := fun he => hnd'.1 (by rw [he]; exact hr)
        rw [List.flatMap_cons, List.filter_append,
          filter_sendGuard_of_ne fails excl p.1 r m hp,
          ih hnd'.2 hr, List.nil_append]

lemma filter_flatMap_sendGuard_self (fails : Str → Bool) (m : Msg)
    (excl : Str) (cs : List (Str × Client)) :
    ((cs.flatMap fun p =>
        if p.1 ≠ excl then send_tcp_message fails p.1 m else []).filter
      fun d => d.1 = excl) = [] := by
  induction cs with
  | nil => rfl
  | cons p rest ih =>
      rw [List.flatMap_cons, List.filter_append,
        filter_sendGuard_at_excl fails excl p.1 m, ih]
      rfl

lemma snd_of_mem_flatMap_sendGuard (fails : Str → Bool) (m : Msg) (excl : Str)
    (cs : List (Str × Client)) (d : Str × Msg)
    (hd : d ∈ cs.flatMap fun p =>
        if p.1 ≠ excl then send_tcp_message fails p.1 m else []) :
    d.2 = m ∧ d.1 ∈ dictKeys cs ∧ d.1 ≠ excl := by
  induction cs with
  | nil => simp at hd
  | cons p rest ih =>
      rw [List.flatMap_cons, List.mem_append] at hd
      rcases hd with hd | hd
      · have he : p.1 ≠ excl := by
          by_cases he : p.1 = excl
          · rw [if_neg (by simpa using he)] at hd
            simp at hd
          · exact he
        rw [if_pos he] at hd
        have hd' : d = (p.1, m) := by
          by_cases hf : fails p.1 <;> simpa [send_tcp_message, hf] using hd
        subst hd'
        exact ⟨rfl, by rw [dictKeys_cons]; exact List.mem_cons_self _ _, he⟩
      · rcases ih hd with ⟨h1, h2, h3⟩
        exact ⟨h1, by rw [dictKeys_cons]; exact List.mem_cons_of_mem _ h2, h3⟩

/-! ### Message-tag dispatch lemmas -/

lemma prefix_append_iff_of_le (l1 l2 r : Str) (h : l1.length ≤ l2.length) :
    l1 <+: (l2 ++ r) ↔ l1 <+: l2 := by
  constructor
  · intro hp
    have ht := List.prefix_iff_eq_take.mp hp
    rw [List.take_append_eq_append_take, Nat.sub_eq_zero_of_le h, List.take_zero,
      List.append_nil] at ht
    rw [ht]
    exact List.take_prefix _ _
  · intro hp
    exact hp.trans (List.prefix_append l2 r)

lemma isPrefixOf_append_self (tag rest : Str) :
    tag.isPrefixOf (tag ++ rest) = true := by
  rw [List.isPrefixOf_iff_prefix]
  exact List.prefix_append tag rest

lemma isPrefixOf_false_of_take_ne (l1 l2 r : Str) (k : Nat)
    (hk1 : k ≤ l1.length) (hk2 : k ≤ l2.length)
    (hne : l1.take k ≠ l2.take k) :
    l1.isPrefixOf (l2 ++ r) = false := by
  rw [← Bool.not_eq_true, List.isPrefixOf_iff_prefix]
  intro hp
  have h1 : l1.take k <+: (l2 ++ r).take k := hp.take k
  rw [List.take_append_eq_append_take, Nat.sub_eq_zero_of_le hk2, List.take_zero,
    List.append_nil] at h1
  have hlen : (l1.take k).length = (l2.take k).length := by
    rw [List.length_take, List.length_take]
    omega
  exact hne (h1.eq_of_length hlen)

lemma process_chat_eq (fails : Str → Bool) (st : ServerState) (A text : Str) :
    process_tcp_message fails st A ("CHAT:".data ++ text) =
      ({ st with total_messages := st.total_messages + 1 },
        broadcast_chat fails st A text) := by
  unfold process_tcp_message
  rw [isPrefixOf_append_self]
  have h5 : ("CHAT:".data ++ text).drop 5 = text := by
    have h : ("CHAT:".data).length = 5 := rfl
    rw [← h, List.drop_left]
  simp [h5]

lemma process_control_eq (fails : Str → Bool) (st : ServerState) (B name : Str) :
    process_tcp_message fails st B ("CONTROL:".data ++ name) =
      handle_control fails st B name := by
  unfold process_tcp_message
  rw [isPrefixOf_false_of_take_ne "CHAT:".data "CONTROL:".data name 2
      (by decide) (by decide) (by decide),
    isPrefixOf_false_of_take_ne "FILE_META:".data "CONTROL:".data name 1
      (by decide) (by decide) (by decide),
    isPrefixOf_append_self]
  have h8 : ("CONTROL:".data ++ name).drop 8 = name := by
    have h : ("CONTROL:".data).length = 8 := rfl
    rw [← h, List.drop_left]
  simp [h8]

/-! ### Claim theorems -/

/-- C1: for every state of the registry, a participant-list broadcast
delivers to every registered session exactly one `USERS` message, and the
payload of every delivered message is exactly the list, over all sessions
in the registry at broadcast time, of that session's username and its
three flags — nothing else. -/
theorem users_broadcast_exact_snapshot (st : ServerState) (r : Str)
    (hnd : KeysNodup st.clients) (hr : r ∈ dictKeys st.clients) :
    ((broadcast_user_list noFail st).filter fun d => d.1 = r) =
      [(r, Msg.users (st.clients.map fun q => userEntryOf q.2))] ∧
    ∀ d ∈ broadcast_user_list noFail st,
      d.2 = Msg.users (st.clients.map fun q => userEntryOf q.2) := by
  constructor
  · simp only [broadcast_user_list]
    exact filter_flatMap_send_of_mem noFail _ r st.clients hnd hr rfl
  · intro d hd
    simp only [broadcast_user_list] at hd
    exact (snd_of_mem_flatMap_send noFail _ st.clients d hd).1

/-- Evaluation of `users_broadcast_exact_snapshot` on the two-session
sample registry. -/
theorem users_broadcast_exact_snapshot_witness :
    KeysNodup stAB.clients ∧ "alice_1000".data ∈ dictKeys stAB.clients ∧
    (((broadcast_user_list noFail stAB).filter
        fun d => d.1 = "alice_1000".data) =
      [("alice_1000".data,
        Msg.users (stAB.clients.map fun q => userEntryOf q.2))] ∧
    ∀ d ∈ broadcast_user_list noFail stAB,
      d.2 = Msg.users (stAB.clients.map fun q => userEntryOf q.2)) :=
  ⟨by decide, by decide,
    users_broadcast_exact_snapshot stAB ("alice_1000".data) (by decide)
      (by decide)⟩

/-- C2: when registered session `A` sends `CHAT:<text>`, every registered
session (including `A` itself) receives exactly one
`CHAT:<A's username>:<text>`, and the message counter increases by one. -/
theorem chat_roundtrip (st : ServerState) (A : Str) (a : Client) (text : Str)
    (hnd : KeysNodup st.clients) (hA : dictGet st.clients A = some a)
    (r : Str) (hr : r ∈ dictKeys st.clients) :
    ((process_tcp_message noFail st A ("CHAT:".data ++ text)).2.filter
        fun d => d.1 = r) = [(r, Msg.chat a.username text)] ∧
    (process_tcp_message noFail st A ("CHAT:".data ++ text)).1.total_messages =
      st.total_messages + 1 := by
  rw [process_chat_eq]
  refine ⟨?_, rfl⟩
  show (broadcast_chat noFail st A text).filter (fun d => d.1 = r) = _
  unfold broadcast_chat
  rw [hA]
  exact filter_flatMap_send_of_mem noFail _ r st.clients hnd hr rfl

/-- Evaluation of `chat_roundtrip`: `alice` sends `CHAT:hi`; `alice`
herself receives exactly one `CHAT:alice:hi`. -/
theorem chat_roundtrip_witness :
    KeysNodup stAB.clients ∧
    dictGet stAB.clients ("alice_1000".data) = some cAlice ∧
    "alice_1000".data ∈ dictKeys stAB.clients ∧
    (((process_tcp_message noFail stAB ("alice_1000".data)
          ("CHAT:".data ++ "hi".data)).2.filter
        fun d => d.1 = "alice_1000".data) =
      [("alice_1000".data, Msg.chat cAlice.username ("hi".data))] ∧
    (process_tcp_message noFail stAB ("alice_1000".data)
        ("CHAT:".data ++ "hi".data)).1.total_messages =
      stAB.total_messages + 1) :=
  ⟨by decide, by decide, by decide,
    chat_roundtrip stAB ("alice_1000".data) cAlice ("hi".data) (by decide)
      (by decide) ("alice_1000".data) (by decide)⟩

/-- C5: a transport-write failure during a broadcast is caught and
discarded for that recipient only: with an arbitrary set of failing
recipients, every non-failing registered recipient still receives the
chat message exactly once, the sender's processing succeeds (counter
still incremented), and the registry is not modified by the broadcast;
the same per-recipient isolation holds for the user-list and status
broadcasts. -/
theorem broadcast_failure_isolated (st : ServerState) (fails : Str → Bool)
    (A : Str) (a : Client) (text : Str)
    (hnd : KeysNodup st.clients) (hA : dictGet st.clients A = some a) :
    (∀ r, r ∈ dictKeys st.clients → fails r = false →
        ((process_tcp_message fails st A ("CHAT:".data ++ text)).2.filter
          fun d => d.1 = r) = [(r, Msg.chat a.username text)]) ∧
    (process_tcp_message fails st A ("CHAT:".data ++ text)).1.clients =
      st.clients ∧
    (process_tcp_message fails st A ("CHAT:".data ++ text)).1.username_to_id =
      st.username_to_id ∧
    (process_tcp_message fails st A ("CHAT:".data ++ text)).1.hosted_files =
      st.hosted_files ∧
    (process_tcp_message fails st A ("CHAT:".data ++ text)).1.total_messages =
      st.total_messages + 1 ∧
    (∀ r, r ∈ dictKeys st.clients → fails r = false →
        ((broadcast_user_list fails st).filter fun d => d.1 = r) =
          [(r, Msg.users (user_list_payload st))]) ∧
    (∀ r, r ∈ dictKeys st.clients → fails r = false → r ≠ A →
        ((broadcast_user_status fails st A).filter fun d => d.1 = r) =
          [(r, Msg.status (userEntryOf a))]) := by
  rw [process_chat_eq]
  refine ⟨?_, rfl, rfl, rfl, rfl, ?_, ?_⟩
  · intro r hr hok
    show (broadcast_chat fails st A text).filter (fun d => d.1 = r) = _
    unfold broadcast_chat
    rw [hA]
    exact filter_flatMap_send_of_mem fails _ r st.clients hnd hr hok
  · intro r hr hok
    simp only [broadcast_user_list]
    exact filter_flatMap_send_of_mem fails _ r st.clients hnd hr hok
  · intro r hr hok hne
    unfold broadcast_user_status
    rw [hA]
    exact filter_flatMap_sendGuard_of_mem fails _ A r st.clients hnd hr hne hok

/-- Evaluation of `broadcast_failure_isolated`: `bob`'s transport fails;
`alice` still receives `CHAT:alice:hi` exactly once and the registry is
untouched. -/
theorem broadcast_failure_isolated_witness :
    KeysNodup stAB.clients ∧
    dictGet stAB.clients ("alice_1000".data) = some cAlice ∧
    ("alice_1000".data ∈ dictKeys stAB.clients ∧
      (fun s => s = "bob_2000".data : Str → Bool) ("alice_1000".data) = false ∧
      ((process_tcp_message (fun s => s = "bob_2000".data) stAB
            ("alice_1000".data) ("CHAT:".data ++ "hi".data)).2.filter
          fun d => d.1 = "alice_1000".data) =
        [("alice_1000".data, Msg.chat cAlice.username ("hi".data))] ∧
      (process_tcp_message (fun s => s = "bob_2000".data) stAB
          ("alice_1000".data) ("CHAT:".data ++ "hi".data)).1.clients =
        stAB.clients) := by
  refine ⟨by decide, by decide, by decide, by decide, ?_, ?_⟩
  · exact (broadcast_failure_isolated stAB (fun s => s = "bob_2000".data)
      ("alice_1000".data) cAlice ("hi".data) (by decide) (by decide)).1
      ("alice_1000".data) (by decide) (by decide)
  · exact (broadcast_failure_isolated stAB (fun s => s = "bob_2000".data)
      ("alice_1000".data) cAlice ("hi".data) (by decide) (by decide)).2.1

/-- C3: when registered session `B` sends `CONTROL:<name>` with a
recognized name, the corresponding flag on `B`'s registry entry is set to
the indicated value, and a `STATUS` message carrying `B`'s username and
current flags is delivered exactly once to every registered session other
than `B` and never to `B` itself. -/
theorem control_toggle (st : ServerState) (B : Str) (b : Client) (name : Str)
    (hnd : KeysNodup st.clients) (hB : dictGet st.clients B = some b)
    (hname : name = "VIDEO_ON".data ∨ name = "VIDEO_OFF".data ∨
      name = "AUDIO_ON".data ∨ name = "AUDIO_OFF".data ∨
      name = "SCREEN_ON".data ∨ name = "SCREEN_OFF".data) :
    dictGet (process_tcp_message noFail st B
        ("CONTROL:".data ++ name)).1.clients B = some (apply_control name b) ∧
    (name = "VIDEO_ON".data → apply_control name b =
      { b with video_active := true }) ∧
    (name = "VIDEO_OFF".data → apply_control name b =
      { b with video_active := false }) ∧
    (name = "AUDIO_ON".data → apply_control name b =
      { b with audio_active := true }) ∧
    (name = "AUDIO_OFF".data → apply_control name b =
      { b with audio_active := false }) ∧
    (name = "SCREEN_ON".data → apply_control name b =
      { b with screen_sharing := true }) ∧
    (name = "SCREEN_OFF".data → apply_control name b =
      { b with screen_sharing := false }) ∧
    (userEntryOf (apply_control name b)).username = b.username ∧
    ((process_tcp_message noFail st B ("CONTROL:".data ++ name)).2.filter
      fun d => d.1 = B) = [] ∧
    (∀ r, r ∈ dictKeys st.clients → r ≠ B →
      ((process_tcp_message noFail st B ("CONTROL:".data ++ name)).2.filter
        fun d => d.1 = r) =
        [(r, Msg.status (userEntryOf (apply_control name b)))]) := by
  rw [process_control_eq]
  have hget : dictGet (dictInsert st.clients B (apply_control name b)) B =
      some (apply_control name b) := dictGet_insert_self st.clients B _
  have hkeys : dictKeys (dictInsert st.clients B (apply_control name b)) =
      dictKeys st.clients :=
    dictKeys_insert_of_isSome st.clients B _ (by rw [hB]; rfl)
  have hnd' : KeysNodup (dictInsert st.clients B (apply_control name b)) := by
    rw [KeysNodup, hkeys]
    exact hnd
  have hctl : handle_control noFail st B name =
      ({ st with clients := dictInsert st.clients B (apply_control name b) },
        broadcast_user_status noFail
          { st with clients := dictInsert st.clients B (apply_control name b) }
          B) := by
    unfold handle_control
    rw [hB]
  have husername : (userEntryOf (apply_control name b)).username = b.username := by
    rcases hname with h | h | h | h | h | h <;> subst h <;>
      simp [apply_control, userEntryOf]
  have hstatus : broadcast_user_status noFail
      { st with clients := dictInsert st.clients B (apply_control name b) } B =
      (dictInsert st.clients B (apply_control name b)).flatMap fun p =>
        if p.1 ≠ B then
          send_tcp_message noFail p.1
            (Msg.status (userEntryOf (apply_control name b)))
        else [] := by
    unfold broadcast_user_status
    rw [show ({ st with clients := dictInsert st.clients B (apply_control name b) }
        : ServerState).clients = dictInsert st.clients B (apply_control name b)
      from rfl, hget]
  rw [hctl]
  refine ⟨hget, ?_, ?_, ?_, ?_, ?_, ?_, husername, ?_, ?_⟩
  · intro h
    subst h
    simp [apply_control]
  · intro h
    subst h
    simp [apply_control]
  · intro h
    subst h
    simp [apply_control]
  · intro h
    subst h
    simp [apply_control]
  · intro h
    subst h
    simp [apply_control]
  · intro h
    subst h
    simp [apply_control]
  · show (broadcast_user_status noFail _ B).filter (fun d => d.1 = B) = []
    rw [hstatus]
    exact filter_flatMap_sendGuard_self noFail _ B _
  · intro r hr hne
    show (broadcast_user_status noFail _ B).filter (fun d => d.1 = r) = _
    rw [hstatus]
    exact filter_flatMap_sendGuard_of_mem noFail _ B r _ hnd'
      (by rw [hkeys]; exact hr) hne rfl

/-- Evaluation of `control_toggle`: `bob` sends `CONTROL:AUDIO_OFF`; his
flag is cleared, `alice` gets exactly one `STATUS`, `bob` gets none. -/
theorem control_toggle_witness :
    KeysNodup stAB.clients ∧
    dictGet stAB.clients ("bob_2000".data) = some cBob ∧
    (dictGet (process_tcp_message noFail stAB ("bob_2000".data)
        ("CONTROL:".data ++ "AUDIO_OFF".data)).1.clients ("bob_2000".data) =
      some (apply_control ("AUDIO_OFF".data) cBob) ∧
    apply_control ("AUDIO_OFF".data) cBob = { cBob with audio_active := false } ∧
    ((process_tcp_message noFail stAB ("bob_2000".data)
        ("CONTROL:".data ++ "AUDIO_OFF".data)).2.filter
      fun d => d.1 = "bob_2000".data) = [] ∧
    ((process_tcp_message noFail stAB ("bob_2000".data)
        ("CONTROL:".data ++ "AUDIO_OFF".data)).2.filter
      fun d => d.1 = "alice_1000".data) =
      [("alice_1000".data,
        Msg.status (userEntryOf (apply_control ("AUDIO_OFF".data) cBob)))]) := by
  have h := control_toggle stAB ("bob_2000".data) cBob ("AUDIO_OFF".data)
    (by decide) (by decide) (Or.inr (Or.inr (Or.inr (Or.inl rfl))))
  exact ⟨by decide, by decide, h.1, h.2.2.2.2.1 rfl, h.2.2.2.2.2.2.2.2.1,
    h.2.2.2.2.2.2.2.2.2 ("alice_1000".data) (by decide) (by decide)⟩

/-! ### UDP relay lemmas -/

lemma encodeStr_length (s : Str) : (encodeStr s).length = s.length :=
  List.length_map s Char.toNat

lemma decodeStr_encodeStr (s : Str) : decodeStr (encodeStr s) = s := by
  unfold decodeStr encodeStr
  rw [List.map_map]
  have h : Char.ofNat ∘ Char.toNat = id := by
    funext c
    exact Char.ofNat_toNat c
  rw [h, List.map_id]

lemma pack16_length (n : Nat) : (pack16 n).length = 2 := rfl

lemma unpack16_pack16 (n : Nat) (h : n < 65536) : unpack16 (pack16 n) = n := by
  simp only [pack16, unpack16, List.getD_cons_zero, List.getD_cons_succ]
  omega

lemma filter_udp_out_of_not_mem (cs : List (Str × Client)) (sender r : Str)
    (packet : List Nat) (hr : r ∉ dictKeys cs) :
    (((cs.filter fun p => p.1 ≠ sender).map fun p =>
        (p.1, p.2.udp_addr, packet)).filter fun d => d.1 = r) = [] := by
  induction cs with
  | nil => rfl
  | cons p rest ih =>
      rw [dictKeys_cons] at hr
      have hp : ¬ (p.1 = r) := fun he => hr (by rw [he]; exact List.mem_cons_self _ _)
      have hrest : r ∉ dictKeys rest := fun hm => hr (List.mem_cons_of_mem _ hm)
      by_cases hg : p.1 = sender
      · rw [List.filter_cons_of_neg (by simpa using hg)]
        exact ih hrest
      · rw [List.filter_cons_of_pos (by simpa using hg), List.map_cons,
          List.filter_cons_of_neg (by simpa using hp)]
        exact ih hrest

lemma filter_udp_out_self (cs : List (Str × Client)) (sender : Str)
    (packet : List Nat) :
    (((cs.filter fun p => p.1 ≠ sender).map fun p =>
        (p.1, p.2.udp_addr, packet)).filter fun d => d.1 = sender) = [] := by
  induction cs with
  | nil => rfl
  | cons p rest ih =>
      by_cases hg : p.1 = sender
      · rw [List.filter_cons_of_neg (by simpa using hg)]
        exact ih
      · rw [List.filter_cons_of_pos (by simpa using hg), List.map_cons,
          List.filter_cons_of_neg (by simpa using hg)]
        exact ih

lemma filter_udp_out_of_mem (cs : List (Str × Client)) (sender r : Str)
    (packet : List Nat) (c : Client) (hnd : KeysNodup cs)
    (hc : dictGet cs r = some c) (hne : r ≠ sender) :
    (((cs.filter fun p => p.1 ≠ sender).map fun p =>
        (p.1, p.2.udp_addr, packet)).filter fun d => d.1 = r) =
      [(r, c.udp_addr, packet)] := by
  induction cs with
  | nil => simp [dictGet] at hc
  | cons p rest ih =>
      rw [KeysNodup, dictKeys_cons] at hnd
      have hnd' := List.nodup_cons.mp hnd
      by_cases hp : p.1 = r
      · have hpc : p.2 = c := by
          rw [dictGet] at hc
          simpa [hp] using hc
        have hps : p.1 ≠ sender := by
          rw [hp]
          exact hne
        rw [List.filter_cons_of_pos (by simpa using hps), List.map_cons,
          List.filter_cons_of_pos (by simpa using hp),
          filter_udp_out_of_not_mem rest sender r packet
            (by rw [← hp]; exact hnd'.1), hp, hpc]
      · have hcr : dictGet rest r = some c := by
          rw [dictGet] at hc
          simpa [hp] using hc
        have ih' := ih (by rw [KeysNodup]; exact hnd'.2) hcr
        by_cases hg : p.1 = sender
        · rw [List.filter_cons_of_neg (by simpa using hg)]
          exact ih'
        · rw [List.filter_cons_of_pos (by simpa using hg), List.map_cons,
            List.filter_cons_of_neg (by simpa using hp)]
          exact ih'

lemma mem_udp_out (cs : List (Str × Client)) (sender : Str)
    (packet : List Nat) (d : Str × Addr × List Nat)
    (hd : d ∈ (cs.filter fun p => p.1 ≠ sender).map fun p =>
        (p.1, p.2.udp_addr, packet)) :
    d.1 ∈ dictKeys cs ∧ d.1 ≠ sender ∧ d.2.2 = packet := by
  rw [List.mem_map] at hd
  obtain ⟨p, hp, hdp⟩ := hd
  have hmem := (List.mem_filter.mp hp).1
  have hflt := (List.mem_filter.mp hp).2
  subst hdp
  exact ⟨mem_dictKeys_of_mem (v := p.2) hmem, by simpa using hflt, rfl⟩

/-- C4: a well-formed UDP media packet whose identifier field is the
clientId of registered session `S` is never forwarded back to `S`;
exactly one outbound datagram is produced per other registered session,
addressed to that session's known `udpEndpoint`, with the identifier
field rewritten to `S`'s username and the packet-type byte and payload
unchanged; and every outbound datagram goes to a registered session other
than `S` (in this code every registered session's endpoint is known,
having been initialised at registration, so none is skipped). -/
theorem udp_relay (st : ServerState) (S_id : Str) (S : Client) (ptype : Nat)
    (payload : List Nat) (addr : Addr)
    (hnd : KeysNodup st.clients) (hS : dictGet st.clients S_id = some S)
    (hlen : S_id.length < 65536) :
    ((handle_udp_streams st
        (ptype :: (pack16 S_id.length ++ (encodeStr S_id ++ payload)))
        addr).2.filter fun d => d.1 = S_id) = [] ∧
    (∀ r c, r ≠ S_id → dictGet st.clients r = some c →
      ((handle_udp_streams st
          (ptype :: (pack16 S_id.length ++ (encodeStr S_id ++ payload)))
          addr).2.filter fun d => d.1 = r) =
        [(r, c.udp_addr,
          ptype :: (pack16 S.username.length ++ encodeStr S.username ++ payload))]) ∧
    (∀ d ∈ (handle_udp_streams st
        (ptype :: (pack16 S_id.length ++ (encodeStr S_id ++ payload)))
        addr).2,
      d.1 ∈ dictKeys st.clients ∧ d.1 ≠ S_id ∧
      d.2.2 = ptype ::
        (pack16 S.username.length ++ encodeStr S.username ++ payload)) := by
  have hdl : (ptype :: (pack16 S_id.length ++ (encodeStr S_id ++ payload))).length
      = 3 + S_id.length + payload.length := by
    simp [pack16, encodeStr]
    omega
  have hp1 : (((ptype :: (pack16 S_id.length ++ (encodeStr S_id ++ payload))).drop
      1).take 2) = pack16 S_id.length := by
    show ((pack16 S_id.length ++ (encodeStr S_id ++ payload)).take 2) = _
    rw [show (2 : Nat) = (pack16 S_id.length).length from rfl, List.take_left]
  have hp2 : (((ptype :: (pack16 S_id.length ++ (encodeStr S_id ++ payload))).drop
      3).take S_id.length) = encodeStr S_id := by
    show (((pack16 S_id.length ++ (encodeStr S_id ++ payload)).drop 2).take
      S_id.length) = _
    rw [show (2 : Nat) = (pack16 S_id.length).length from rfl, List.drop_left,
      show S_id.length = (encodeStr S_id).length from (encodeStr_length S_id).symm,
      List.take_left]
  have hp3 : ((ptype :: (pack16 S_id.length ++ (encodeStr S_id ++ payload))).drop
      (3 + S_id.length)) = payload := by
    rw [← List.drop_drop]
    show ((pack16 S_id.length ++ (encodeStr S_id ++ payload)).drop 2).drop
      S_id.length = _
    rw [show (2 : Nat) = (pack16 S_id.length).length from rfl, List.drop_left,
      show S_id.length = (encodeStr S_id).length from (encodeStr_length S_id).symm,
      List.drop_left]
  have hkeys : dictKeys (dictInsert st.clients S_id { S with udp_addr := addr }) =
      dictKeys st.clients :=
    dictKeys_insert_of_isSome st.clients S_id _ (by rw [hS]; rfl)
  have hnd' : KeysNodup (dictInsert st.clients S_id { S with udp_addr := addr }) := by
    rw [KeysNodup, hkeys]
    exact hnd
  have hstep : handle_udp_streams st
      (ptype :: (pack16 S_id.length ++ (encodeStr S_id ++ payload))) addr =
    ({ st with
        clients := dictInsert st.clients S_id { S with udp_addr := addr },
        total_bytes := st.total_bytes +
          (ptype :: (pack16 S_id.length ++ (encodeStr S_id ++ payload))).length },
      broadcast_udp
        { st with
          clients := dictInsert st.clients S_id { S with udp_addr := addr } }
        payload S_id ptype) := by
    unfold handle_udp_streams
    rw [if_neg (by omega)]
    simp only [hp1, unpack16_pack16 S_id.length hlen]
    rw [if_neg (by omega)]
    simp only [hp2, hp3, decodeStr_encodeStr, hS, List.getD_cons_zero]
  have hbp : broadcast_udp
      { st with clients := dictInsert st.clients S_id { S with udp_addr := addr } }
      payload S_id ptype =
    ((dictInsert st.clients S_id { S with udp_addr := addr }).filter
        fun p => p.1 ≠ S_id).map fun p =>
      (p.1, p.2.udp_addr,
        ptype :: (pack16 S.username.length ++ encodeStr S.username ++ payload)) := by
    unfold broadcast_udp
    rw [show ({ st with
        clients := dictInsert st.clients S_id { S with udp_addr := addr } }
          : ServerState).clients =
        dictInsert st.clients S_id { S with udp_addr := addr } from rfl,
      dictGet_insert_self]
    simp only [encodeStr_length]
  rw [hstep, hbp]
  refine ⟨?_, ?_, ?_⟩
  · exact filter_udp_out_self _ S_id _
  · intro r c hne hc
    exact filter_udp_out_of_mem _ S_id r _ c hnd'
      (by rw [dictGet_insert_ne _ _ _ _ hne]; exact hc) hne
  · intro d hd
    have h := mem_udp_out _ S_id _ d hd
    exact ⟨by rw [← hkeys]; exact h.1, h.2.1, h.2.2⟩

/-! ### File-transfer lemmas -/

lemma readexactly_append (l r : List Nat) :
    readexactly l.length (l ++ r) = some (l, r) := by
  unfold readexactly
  rw [if_pos (by rw [List.length_append]; omega), List.take_left, List.drop_left]

lemma unpack32_pack32 (n : Nat) (h : n < 2 ^ 32) : unpack32 (pack32 n) = n := by
  simp only [pack32, unpack32, List.getD_cons_zero, List.getD_cons_succ]
  omega

lemma unpack64_pack64 (n : Nat) (h : n < 2 ^ 64) : unpack64 (pack64 n) = n := by
  simp only [pack64, unpack64, List.getD_cons_zero, List.getD_cons_succ]
  omega

lemma pack64_length (n : Nat) : (pack64 n).length = 8 := rfl

lemma readChunks_append : ∀ (n : Nat) (content extra : List Nat),
    content.length = n →
    readChunks n (content ++ extra) = some (content, extra) := by
  intro n
  induction n using Nat.strong_induction_on with
  | _ n ih =>
      intro content extra hlen
      match n, hlen with
      | 0, hlen =>
          have hc : content = [] := List.eq_nil_of_length_eq_zero hlen
          subst hc
          simp [readChunks]
      | m + 1, hlen =>
          have hcs1 : 1 ≤ min 65536 (m + 1) := by omega
          have hcsle : min 65536 (m + 1) ≤ m + 1 := by omega
          have h1 : readexactly (min 65536 (m + 1)) (content ++ extra) =
              some (content.take (min 65536 (m + 1)),
                content.drop (min 65536 (m + 1)) ++ extra) := by
            unfold readexactly
            rw [if_pos (by rw [List.length_append]; omega)]
            rw [List.take_append_eq_append_take,
              Nat.sub_eq_zero_of_le (by omega), List.take_zero, List.append_nil,
              List.drop_append_eq_append_drop,
              Nat.sub_eq_zero_of_le (by omega), List.drop_zero]
          have h2 : readChunks (m + 1 - min 65536 (m + 1))
              (content.drop (min 65536 (m + 1)) ++ extra) =
              some (content.drop (min 65536 (m + 1)), extra) :=
            ih (m + 1 - min 65536 (m + 1)) (by omega) _ extra
              (by rw [List.length_drop]; omega)
          simp only [readChunks, h1, h2, List.take_append_drop]

lemma readChunks_all (content : List Nat) :
    readChunks content.length content = some (content, []) := by
  have h := readChunks_append content.length content [] rfl
  rwa [List.append_nil] at h

lemma parseFileHeader_eq (cmd : Nat) (cid filename : Str) (rest : List Nat)
    (hid : cid.length < 65536) (hname : filename.length < 2 ^ 32) :
    parseFileHeader ([cmd] ++ (pack16 cid.length ++ (encodeStr cid ++
        (pack32 filename.length ++ (encodeStr filename ++ rest))))) =
      some (cmd, cid, filename, rest) := by
  have r1 : readexactly 1 ([cmd] ++ (pack16 cid.length ++ (encodeStr cid ++
      (pack32 filename.length ++ (encodeStr filename ++ rest))))) =
      some ([cmd], pack16 cid.length ++ (encodeStr cid ++
        (pack32 filename.length ++ (encodeStr filename ++ rest)))) :=
    readexactly_append [cmd] _
  have r2 : readexactly 2 (pack16 cid.length ++ (encodeStr cid ++
      (pack32 filename.length ++ (encodeStr filename ++ rest)))) =
      some (pack16 cid.length, encodeStr cid ++
        (pack32 filename.length ++ (encodeStr filename ++ rest))) :=
    readexactly_append (pack16 cid.length) _
  have r3 : readexactly cid.length (encodeStr cid ++
      (pack32 filename.length ++ (encodeStr filename ++ rest))) =
      some (encodeStr cid,
        pack32 filename.length ++ (encodeStr filename ++ rest)) := by
    have h := readexactly_append (encodeStr cid)
      (pack32 filename.length ++ (encodeStr filename ++ rest))
    rwa [encodeStr_length] at h
  have r4 : readexactly 4 (pack32 filename.length ++
      (encodeStr filename ++ rest)) =
      some (pack32 filename.length, encodeStr filename ++ rest) :=
    readexactly_append (pack32 filename.length) _
  have r5 : readexactly filename.length (encodeStr filename ++ rest) =
      some (encodeStr filename, rest) := by
    have h := readexactly_append (encodeStr filename) rest
    rwa [encodeStr_length] at h
  unfold parseFileHeader
  simp only [r1, Option.bind_eq_bind, Option.some_bind, r2,
    unpack16_pack16 cid.length hid, r3, r4,
    unpack32_pack32 filename.length hname, r5, decodeStr_encodeStr,
    List.getD_cons_zero]
  rfl

lemma handle_file_client_upload (st : ServerState) (cid F : Str)
    (content : List Nat) (hid : cid.length < 65536) (hname : F.length < 2 ^ 32)
    (hsz : content.length < 2 ^ 64) :
    handle_file_client st ([1] ++ (pack16 cid.length ++ (encodeStr cid ++
        (pack32 F.length ++ (encodeStr F ++
          (pack64 content.length ++ content)))))) =
      ({ st with
          fs := dictInsert st.fs (save_path_of F) content,
          hosted_files := dictInsert st.hosted_files F (save_path_of F) },
        []) := by
  unfold handle_file_client
  rw [parseFileHeader_eq 1 cid F (pack64 content.length ++ content) hid hname]
  have r8 : readexactly 8 (pack64 content.length ++ content) =
      some (pack64 content.length, content) :=
    readexactly_append (pack64 content.length) content
  simp only [r8, unpack64_pack64 content.length hsz, readChunks_all]
  simp

lemma handle_file_client_download_found (st : ServerState) (cid F fp : Str)
    (content : List Nat) (hid : cid.length < 65536) (hname : F.length < 2 ^ 32)
    (hfp : dictGet st.hosted_files F = some fp)
    (hfs : dictGet st.fs fp = some content) :
    handle_file_client st ([2] ++ (pack16 cid.length ++ (encodeStr cid ++ (pack32 F.length ++ (encodeStr F ++ []))))) =
      (st, pack64 content.length ++ content) := by
  unfold handle_file_client
  rw [parseFileHeader_eq 2 cid F [] hid hname]
  simp [hfp, hfs]

lemma handle_file_client_download_notfound (st : ServerState) (cid F : Str)
    (hid : cid.length < 65536) (hname : F.length < 2 ^ 32)
    (hfp : dictGet st.hosted_files F = none) :
    handle_file_client st ([2] ++ (pack16 cid.length ++ (encodeStr cid ++ (pack32 F.length ++ (encodeStr F ++ []))))) = (st, pack64 0) := by
  unfold handle_file_client
  rw [parseFileHeader_eq 2 cid F [] hid hname]
  simp [hfp]

/-- C6: uploading file `F` with byte sequence `content` (header, 8-byte
length, then the bytes) registers `F` in the hosted-file catalog
(overwriting any prior entry of the same name), and a subsequent download
of `F` responds with 8 bytes encoding the length followed by exactly the
uploaded bytes. -/
theorem upload_download_roundtrip (st : ServerState) (cid cid2 F : Str)
    (content : List Nat) (hid : cid.length < 65536)
    (hid2 : cid2.length < 65536) (hname : F.length < 2 ^ 32)
    (hsz : content.length < 2 ^ 64) :
    dictGet (handle_file_client st
        ([1] ++ (pack16 cid.length ++ (encodeStr cid ++ (pack32 F.length ++ (encodeStr F ++ (pack64 content.length ++ content))))))).1.hosted_files F = some (save_path_of F) ∧
    (handle_file_client (handle_file_client st ([1] ++ (pack16 cid.length ++ (encodeStr cid ++ (pack32 F.length ++ (encodeStr F ++ (pack64 content.length ++ content))))))).1 ([2] ++ (pack16 cid2.length ++ (encodeStr cid2 ++ (pack32 F.length ++ (encodeStr F ++ [])))))).2 = pack64 content.length ++ content ∧
    ((handle_file_client (handle_file_client st ([1] ++ (pack16 cid.length ++ (encodeStr cid ++ (pack32 F.length ++ (encodeStr F ++ (pack64 content.length ++ content))))))).1 ([2] ++ (pack16 cid2.length ++ (encodeStr cid2 ++ (pack32 F.length ++ (encodeStr F ++ [])))))).2).take 8 = pack64 content.length ∧
    ((handle_file_client (handle_file_client st ([1] ++ (pack16 cid.length ++ (encodeStr cid ++ (pack32 F.length ++ (encodeStr F ++ (pack64 content.length ++ content))))))).1 ([2] ++ (pack16 cid2.length ++ (encodeStr cid2 ++ (pack32 F.length ++ (encodeStr F ++ [])))))).2).drop 8 = content := by
  have hup := handle_file_client_upload st cid F content hid hname hsz
  have hdl := handle_file_client_download_found
    ({ st with
        fs := dictInsert st.fs (save_path_of F) content,
        hosted_files := dictInsert st.hosted_files F (save_path_of F) })
    cid2 F (save_path_of F) content hid2 hname
    (dictGet_insert_self _ _ _) (dictGet_insert_self _ _ _)
  rw [hup, hdl]
  refine ⟨dictGet_insert_self _ _ _, rfl, ?_, ?_⟩
  · show (pack64 content.length ++ content).take (pack64 content.length).length = _
    exact List.take_left _ _
  · show (pack64 content.length ++ content).drop (pack64 content.length).length = _
    exact List.drop_left _ _

/-- Evaluation of `upload_download_roundtrip`: upload 12 bytes as
`notes.txt`, download them back. -/
theorem upload_download_roundtrip_witness :
    ("alice_1000".data).length < 65536 ∧
    ("bob_2000".data).length < 65536 ∧
    ("notes.txt".data).length < 2 ^ 32 ∧
    ([1, 2, 3, 4, 5, 6, 7, 8, 9, 10, 11, 12] : List Nat).length < 2 ^ 64 ∧
    (dictGet (handle_file_client stAB
        ([1] ++ (pack16 ("alice_1000".data).length ++ (encodeStr ("alice_1000".data) ++ (pack32 ("notes.txt".data).length ++ (encodeStr ("notes.txt".data) ++ (pack64 ([1, 2, 3, 4, 5, 6, 7, 8, 9, 10, 11, 12] : List Nat).length ++ [1, 2, 3, 4, 5, 6, 7, 8, 9, 10, 11, 12]))))))).1.hosted_files ("notes.txt".data) =
      some (save_path_of ("notes.txt".data)) ∧
    (handle_file_client (handle_file_client stAB
        ([1] ++ (pack16 ("alice_1000".data).length ++ (encodeStr ("alice_1000".data) ++ (pack32 ("notes.txt".data).length ++ (encodeStr ("notes.txt".data) ++ (pack64 ([1, 2, 3, 4, 5, 6, 7, 8, 9, 10, 11, 12] : List Nat).length ++ [1, 2, 3, 4, 5, 6, 7, 8, 9, 10, 11, 12]))))))).1
        ([2] ++ (pack16 ("bob_2000".data).length ++ (encodeStr ("bob_2000".data) ++ (pack32 ("notes.txt".data).length ++ (encodeStr ("notes.txt".data) ++ [])))))).2 =
      pack64 ([1, 2, 3, 4, 5, 6, 7, 8, 9, 10, 11, 12] : List Nat).length ++ [1, 2, 3, 4, 5, 6, 7, 8, 9, 10, 11, 12]) := by
  have h := upload_download_roundtrip stAB ("alice_1000".data)
    ("bob_2000".data) ("notes.txt".data) [1, 2, 3, 4, 5, 6, 7, 8, 9, 10, 11, 12]
    (by decide) (by decide) (by decide) (by decide)
  exact ⟨by decide, by decide, by decide, by decide, h.1, h.2.1⟩

/-- C7: a download request for a filename absent from the hosted-file
catalog is answered with exactly the eight zero bytes of a zero length —
no payload, no error message — and the request leaves the server state
unchanged (it is handled as a normal request, not a connection error). -/
theorem download_not_found (st : ServerState) (cid F : Str)
    (hid : cid.length < 65536) (hname : F.length < 2 ^ 32)
    (habs : dictGet st.hosted_files F = none) :
    (handle_file_client st ([2] ++ (pack16 cid.length ++ (encodeStr cid ++
        (pack32 F.length ++ (encodeStr F ++ [])))))).2 = pack64 0 ∧
    pack64 0 = [0, 0, 0, 0, 0, 0, 0, 0] ∧
    (handle_file_client st ([2] ++ (pack16 cid.length ++ (encodeStr cid ++
        (pack32 F.length ++ (encodeStr F ++ [])))))).1 = st := by
  rw [handle_file_client_download_notfound st cid F hid hname habs]
  exact ⟨rfl, by decide, rfl⟩

/-- Evaluation of `download_not_found`: downloading `missing.txt` from
the sample registry (which hosts no files) yields the 8-byte zero
header only. -/
theorem download_not_found_witness :
    ("bob_2000".data).length < 65536 ∧
    ("missing.txt".data).length < 2 ^ 32 ∧
    dictGet stAB.hosted_files ("missing.txt".data) = none ∧
    ((handle_file_client stAB ([2] ++ (pack16 ("bob_2000".data).length ++
        (encodeStr ("bob_2000".data) ++ (pack32 ("missing.txt".data).length ++
          (encodeStr ("missing.txt".data) ++ [])))))).2 = pack64 0 ∧
      pack64 0 = [0, 0, 0, 0, 0, 0, 0, 0] ∧
      (handle_file_client stAB ([2] ++ (pack16 ("bob_2000".data).length ++
        (encodeStr ("bob_2000".data) ++ (pack32 ("missing.txt".data).length ++
          (encodeStr ("missing.txt".data) ++ [])))))).1 = stAB) :=
  ⟨by decide, by decide, by decide,
    download_not_found stAB ("bob_2000".data) ("missing.txt".data)
      (by decide) (by decide) (by decide)⟩

/-- Evaluation of `udp_relay`: a video packet from `alice` is forwarded
to `bob` (re-tagged with the username `alice`) and never back to
`alice`. -/
theorem udp_relay_witness :
    KeysNodup stAB.clients ∧
    dictGet stAB.clients ("alice_1000".data) = some cAlice ∧
    ("alice_1000".data).length < 65536 ∧
    (((handle_udp_streams stAB
        (1 :: (pack16 ("alice_1000".data).length ++
          (encodeStr ("alice_1000".data) ++ [9, 9])))
        ("10.0.0.9".data, 5555)).2.filter
      fun d => d.1 = "alice_1000".data) = [] ∧
    ((handle_udp_streams stAB
        (1 :: (pack16 ("alice_1000".data).length ++
          (encodeStr ("alice_1000".data) ++ [9, 9])))
        ("10.0.0.9".data, 5555)).2.filter
      fun d => d.1 = "bob_2000".data) =
      [("bob_2000".data, cBob.udp_addr,
        1 :: (pack16 cAlice.username.length ++
          encodeStr cAlice.username ++ [9, 9]))]) := by
  have h := udp_relay stAB ("alice_1000".data) cAlice 1 [9, 9]
    ("10.0.0.9".data, 5555) (by decide) (by decide) (by decide)
  exact ⟨by decide, by decide, by decide, h.1,
    h.2.1 ("bob_2000".data) cBob (by decide) (by decide)⟩

/-! ### Liveness-sweep and teardown lemmas -/

lemma dictErase_of_dictGet_none {α : Type} (d : List (Str × α)) (k : Str)
    (h : dictGet d k = none) : dictErase d k = d := by
  induction d with
  | nil => rfl
  | cons p rest ih =>
      by_cases hp : p.1 = k
      · simp [dictGet, hp] at h
      · simp [dictGet, hp] at h
        simp [dictErase, hp, ih h]

lemma dictGet_foldl_erase {α : Type} :
    ∀ (ids : List Str) (cs : List (Str × α)) (k : Str),
    dictGet (ids.foldl (fun cs cid =>
        if (dictGet cs cid).isSome then dictErase cs cid else cs) cs) k =
      if k ∈ ids then none else dictGet cs k := by
  intro ids
  induction ids with
  | nil =>
      intro cs k
      simp
  | cons cid rest ih =>
      intro cs k
      rw [List.foldl_cons, ih]
      have hstep : dictGet (if (dictGet cs cid).isSome then dictErase cs cid
          else cs) cid = none := by
        by_cases hs : (dictGet cs cid).isSome
        · rw [if_pos hs]
          exact dictGet_erase_self cs cid
        · rw [if_neg hs]
          cases hg : dictGet cs cid with
          | none => rfl
          | some v => exact absurd (by rw [hg]; rfl) hs
      by_cases hmem : k ∈ rest
      · simp [hmem]
      · by_cases hk : k = cid
        · subst hk
          simp [hmem, hstep]
        · have hne : dictGet (if (dictGet cs cid).isSome then dictErase cs cid
              else cs) k = dictGet cs k := by
            by_cases hs : (dictGet cs cid).isSome
            · rw [if_pos hs]
              exact dictGet_erase_ne cs cid k hk
            · rw [if_neg hs]
          simp [hmem, hk, hne]

lemma cleanup_inactive_fst (fails : Str → Bool) (st : ServerState)
    (current_time : Nat) :
    (cleanup_inactive_clients fails st current_time).1 =
      { st with clients :=
          (((st.clients.filter fun p =>
              staleness_threshold < current_time - p.2.last_seen).map
            Prod.fst).foldl
            (fun cs cid =>
              if (dictGet cs cid).isSome then dictErase cs cid else cs)
            st.clients) } := by
  unfold cleanup_inactive_clients
  by_cases h : (((st.clients.filter fun p =>
      staleness_threshold < current_time - p.2.last_seen).map
        Prod.fst)).isEmpty <;>
    simp [h]

lemma cleanup_inactive_snd (fails : Str → Bool) (st : ServerState)
    (now : Nat) :
    (cleanup_inactive_clients fails st now).2 =
      if ((st.clients.filter fun p =>
          staleness_threshold < now - p.2.last_seen).map Prod.fst).isEmpty
      then []
      else broadcast_user_list fails (cleanup_inactive_clients fails st now).1 := by
  rw [cleanup_inactive_fst]
  unfold cleanup_inactive_clients
  by_cases h : ((st.clients.filter fun p =>
      staleness_threshold < now - p.2.last_seen).map Prod.fst).isEmpty <;>
    simp [h]

/-- C8: one liveness sweep (run every `cleanup_interval = 60` seconds)
removes exactly the sessions whose `last_seen` is more than the
`staleness_threshold = 300` seconds in the past, keeps all others; if at
least one session was removed exactly one refreshed participant-list
broadcast follows, if none was removed no broadcast occurs; and an
evicted session neither remains in the registry nor receives the
following `USERS` broadcast. -/
theorem liveness_sweep (st : ServerState) (now : Nat)
    (hnd : KeysNodup st.clients) :
    (cleanup_interval = 60 ∧ staleness_threshold = 300) ∧
    (∀ p ∈ st.clients, staleness_threshold < now - p.2.last_seen →
      dictGet (cleanup_inactive_clients noFail st now).1.clients p.1 = none) ∧
    (∀ p ∈ st.clients, ¬ staleness_threshold < now - p.2.last_seen →
      dictGet (cleanup_inactive_clients noFail st now).1.clients p.1 =
        some p.2) ∧
    ((∃ p ∈ st.clients, staleness_threshold < now - p.2.last_seen) →
      (cleanup_inactive_clients noFail st now).2 =
        broadcast_user_list noFail (cleanup_inactive_clients noFail st now).1) ∧
    ((∀ p ∈ st.clients, ¬ staleness_threshold < now - p.2.last_seen) →
      (cleanup_inactive_clients noFail st now).2 = []) ∧
    (∀ p ∈ st.clients, staleness_threshold < now - p.2.last_seen →
      ∀ d ∈ (cleanup_inactive_clients noFail st now).2, d.1 ≠ p.1) := by
  have hfst := cleanup_inactive_fst noFail st now
  have hsnd := cleanup_inactive_snd noFail st now
  have hcl : (cleanup_inactive_clients noFail st now).1.clients =
      ((st.clients.filter fun p =>
          staleness_threshold < now - p.2.last_seen).map Prod.fst).foldl
        (fun cs cid =>
          if (dictGet cs cid).isSome then dictErase cs cid else cs)
        st.clients := by
    rw [hfst]
  have hmem_inactive : ∀ p ∈ st.clients,
      staleness_threshold < now - p.2.last_seen →
      p.1 ∈ (st.clients.filter fun q =>
        staleness_threshold < now - q.2.last_seen).map Prod.fst := by
    intro p hp hs
    exact List.mem_map_of_mem Prod.fst
      (List.mem_filter.mpr ⟨hp, by simpa using hs⟩)
  have hnot_inactive : ∀ p ∈ st.clients,
      ¬ staleness_threshold < now - p.2.last_seen →
      p.1 ∉ (st.clients.filter fun q =>
        staleness_threshold < now - q.2.last_seen).map Prod.fst := by
    intro p hp hs hmem
    rw [List.mem_map] at hmem
    obtain ⟨q, hq, hq1⟩ := hmem
    have hqc := (List.mem_filter.mp hq).1
    have hqs : staleness_threshold < now - q.2.last_seen := by
      simpa using (List.mem_filter.mp hq).2
    have e1 : dictGet st.clients p.1 = some p.2 :=
      dictGet_eq_some_of_mem _ _ _ hnd hp
    have e2 : dictGet st.clients p.1 = some q.2 := by
      rw [← hq1]
      exact dictGet_eq_some_of_mem _ _ _ hnd hqc
    have h3 : (some p.2 : Option Client) = some q.2 := by
      rw [← e1, ← e2]
    have h4 : p.2 = q.2 := Option.some.inj h3
    exact hs (by rw [h4]; exact hqs)
  refine ⟨⟨rfl, rfl⟩, ?_, ?_, ?_, ?_, ?_⟩
  · intro p hp hs
    rw [hcl, dictGet_foldl_erase, if_pos (hmem_inactive p hp hs)]
  · intro p hp hs
    rw [hcl, dictGet_foldl_erase, if_neg (hnot_inactive p hp hs)]
    exact dictGet_eq_some_of_mem _ _ _ hnd hp
  · rintro ⟨p, hp, hs⟩
    have hne : ¬ ((st.clients.filter fun q =>
        staleness_threshold < now - q.2.last_seen).map Prod.fst).isEmpty = true := by
      rw [List.isEmpty_iff]
      exact List.ne_nil_of_mem (hmem_inactive p hp hs)
    rw [hsnd, if_neg hne]
  · intro h
    have hf : (st.clients.filter fun q =>
        staleness_threshold < now - q.2.last_seen) = [] :=
      List.filter_eq_nil_iff.mpr (fun q hq => by simpa using h q hq)
    rw [hsnd, if_pos (by rw [hf]; rfl)]
  · intro p hp hs d hd
    have hnone : dictGet (cleanup_inactive_clients noFail st now).1.clients
        p.1 = none := by
      rw [hcl, dictGet_foldl_erase, if_pos (hmem_inactive p hp hs)]
    rw [hsnd] at hd
    by_cases hemp : ((st.clients.filter fun q =>
        staleness_threshold < now - q.2.last_seen).map Prod.fst).isEmpty
    · rw [if_pos hemp] at hd
      simp at hd
    · rw [if_neg hemp] at hd
      simp only [broadcast_user_list] at hd
      have h2 := (snd_of_mem_flatMap_send noFail _ _ d hd).2
      intro he
      rw [he] at h2
      have h3 := dictGet_isSome_of_mem _ _ h2
      rw [hnone] at h3
      simp at h3

/-- Evaluation of `liveness_sweep` at time 400 on the sample registry:
`alice` (last seen 50) is evicted, `bob` (last seen 350) is kept, and
the refreshed broadcast goes to `bob` only. -/
theorem liveness_sweep_witness :
    KeysNodup stAB.clients ∧
    (("alice_1000".data, cAlice) ∈ stAB.clients ∧
      staleness_threshold < 400 - cAlice.last_seen ∧
      dictGet (cleanup_inactive_clients noFail stAB 400).1.clients
        ("alice_1000".data) = none) ∧
    (("bob_2000".data, cBob) ∈ stAB.clients ∧
      ¬ staleness_threshold < 400 - cBob.last_seen ∧
      dictGet (cleanup_inactive_clients noFail stAB 400).1.clients
        ("bob_2000".data) = some cBob) ∧
    (cleanup_inactive_clients noFail stAB 400).2 =
      broadcast_user_list noFail (cleanup_inactive_clients noFail stAB 400).1 ∧
    (∀ d ∈ (cleanup_inactive_clients noFail stAB 400).2,
      d.1 ≠ "alice_1000".data) := by
  have h := liveness_sweep stAB 400 (by decide)
  refine ⟨by decide, ⟨by decide, by decide, ?_⟩, ⟨by decide, by decide, ?_⟩,
    ?_, ?_⟩
  · exact h.2.1 ("alice_1000".data, cAlice) (by decide) (by decide)
  · exact h.2.2.1 ("bob_2000".data, cBob) (by decide) (by decide)
  · exact h.2.2.2.1 ⟨("alice_1000".data, cAlice), by decide, by decide⟩
  · exact h.2.2.2.2.2 ("alice_1000".data, cAlice) (by decide) (by decide)

lemma teardown_client_fst (fails : Str → Bool) (st : ServerState) (cid : Str)
    (c : Client) (hc : dictGet st.clients cid = some c) :
    (teardown_client fails st cid).1 =
      { st with
        clients := dictErase st.clients cid,
        username_to_id :=
          if (dictGet st.username_to_id c.username).isSome then
            dictErase st.username_to_id c.username
          else st.username_to_id,
        rooms_main := st.rooms_main.filter (· ≠ cid) } := by
  unfold teardown_client
  rw [hc]

/-- C9: the liveness sweep deletes only the `clients` entry of an evicted
session: the username index and the room set are untouched, so a lookup
by the evicted session's username still returns the evicted clientId —
unlike control-loop teardown, which also deletes the username entry. -/
theorem sweep_leaves_index_and_room (st : ServerState) (now : Nat) :
    (cleanup_inactive_clients noFail st now).1.username_to_id =
      st.username_to_id ∧
    (cleanup_inactive_clients noFail st now).1.rooms_main = st.rooms_main ∧
    (∀ p ∈ st.clients, staleness_threshold < now - p.2.last_seen →
      dictGet st.username_to_id p.2.username = some p.1 →
        dictGet (cleanup_inactive_clients noFail st now).1.username_to_id
          p.2.username = some p.1 ∧
        dictGet (cleanup_inactive_clients noFail st now).1.clients p.1 =
          none) ∧
    (∀ cid c, dictGet st.clients cid = some c →
      dictGet (teardown_client noFail st cid).1.username_to_id c.username =
        none) := by
  have hfst := cleanup_inactive_fst noFail st now
  have hu : (cleanup_inactive_clients noFail st now).1.username_to_id =
      st.username_to_id := by
    rw [hfst]
  have hr : (cleanup_inactive_clients noFail st now).1.rooms_main =
      st.rooms_main := by
    rw [hfst]
  have hcl : (cleanup_inactive_clients noFail st now).1.clients =
      ((st.clients.filter fun p =>
          staleness_threshold < now - p.2.last_seen).map Prod.fst).foldl
        (fun cs cid =>
          if (dictGet cs cid).isSome then dictErase cs cid else cs)
        st.clients := by
    rw [hfst]
  refine ⟨hu, hr, ?_, ?_⟩
  · intro p hp hs hidx
    refine ⟨by rw [hu]; exact hidx, ?_⟩
    rw [hcl, dictGet_foldl_erase,
      if_pos (List.mem_map_of_mem Prod.fst
        (List.mem_filter.mpr ⟨hp, by simpa using hs⟩))]
  · intro cid c hc
    rw [teardown_client_fst noFail st cid c hc]
    show dictGet (if (dictGet st.username_to_id c.username).isSome then
        dictErase st.username_to_id c.username else st.username_to_id)
      c.username = none
    by_cases hs : (dictGet st.username_to_id c.username).isSome
    · rw [if_pos hs]
      exact dictGet_erase_self _ _
    · rw [if_neg hs]
      cases hg : dictGet st.username_to_id c.username with
      | none => rfl
      | some v => exact absurd (by rw [hg]; rfl) hs

/-- Evaluation of `sweep_leaves_index_and_room` on the sample registry at
time 400: `alice` is evicted from `clients`, yet the username index still
maps `alice` to her clientId; tearing down `alice`'s control loop would
have deleted the index entry. -/
theorem sweep_leaves_index_and_room_witness :
    (cleanup_inactive_clients noFail stAB 400).1.username_to_id =
      stAB.username_to_id ∧
    (cleanup_inactive_clients noFail stAB 400).1.rooms_main =
      stAB.rooms_main ∧
    (("alice_1000".data, cAlice) ∈ stAB.clients ∧
      staleness_threshold < 400 - cAlice.last_seen ∧
      dictGet stAB.username_to_id cAlice.username = some ("alice_1000".data) ∧
      dictGet (cleanup_inactive_clients noFail stAB 400).1.username_to_id
        cAlice.username = some ("alice_1000".data) ∧
      dictGet (cleanup_inactive_clients noFail stAB 400).1.clients
        ("alice_1000".data) = none) ∧
    (dictGet stAB.clients ("alice_1000".data) = some cAlice ∧
      dictGet (teardown_client noFail stAB ("alice_1000".data)).1.username_to_id
        cAlice.username = none) := by
  have h := sweep_leaves_index_and_room stAB 400
  have h3 := h.2.2.1 ("alice_1000".data, cAlice) (by decide) (by decide)
    (by decide)
  exact ⟨h.1, h.2.1, ⟨by decide, by decide, by decide, h3.1, h3.2⟩,
    by decide, h.2.2.2 ("alice_1000".data) cAlice (by decide)⟩

/-- C10: the control-loop teardown of a session deletes the
username-to-clientId entry for its username whenever one exists, even if
that entry meanwhile points at a different (second) session's clientId;
the second session stays registered but is no longer reachable through
the username index. -/
theorem teardown_deletes_index_unconditionally (st : ServerState)
    (cid cid2 : Str) (c c2 : Client)
    (hc : dictGet st.clients cid = some c)
    (hidx : dictGet st.username_to_id c.username = some cid2)
    (hne2 : cid2 ≠ cid)
    (hc2 : dictGet st.clients cid2 = some c2) :
    dictGet (teardown_client noFail st cid).1.username_to_id c.username =
      none ∧
    dictGet (teardown_client noFail st cid).1.clients cid2 = some c2 := by
  rw [teardown_client_fst noFail st cid c hc]
  constructor
  · show dictGet (if (dictGet st.username_to_id c.username).isSome then
        dictErase st.username_to_id c.username else st.username_to_id)
      c.username = none
    rw [if_pos (by rw [hidx]; rfl)]
    exact dictGet_erase_self _ _
  · show dictGet (dictErase st.clients cid) cid2 = some c2
    rw [dictGet_erase_ne st.clients cid cid2 hne2]
    exact hc2

/-- Evaluation of `teardown_deletes_index_unconditionally` on the
duplicate-username registry: tearing down the first `alice` session
deletes the index entry that points at the second `alice` session, which
remains registered but unreachable by username. -/
theorem teardown_deletes_index_unconditionally_witness :
    dictGet stDup.clients ("alice_1000".data) = some cAlice ∧
    dictGet stDup.username_to_id cAlice.username = some ("alice_9000".data) ∧
    ("alice_9000".data ≠ "alice_1000".data) ∧
    dictGet stDup.clients ("alice_9000".data) = some cAlice2 ∧
    (dictGet (teardown_client noFail stDup
        ("alice_1000".data)).1.username_to_id cAlice.username = none ∧
      dictGet (teardown_client noFail stDup ("alice_1000".data)).1.clients
        ("alice_9000".data) = some cAlice2) :=
  ⟨by decide, by decide, by decide, by decide,
    teardown_deletes_index_unconditionally stDup ("alice_1000".data)
      ("alice_9000".data) cAlice cAlice2 (by decide) (by decide) (by decide)
      (by decide)⟩
